import Mathlib

/-!
Verification of `sample-plugins/hello-plugin/add_custom_section.py`.

Byte strings are modelled as `List Nat` (each element one byte).  The two
functions of the script, `encode_leb128` and `add_custom_section`, are
embedded below; the fallible `add_custom_section` (which raises
`ValueError` on a bad magic) returns `Except String (List Nat)`.
-/

/-- Embedding of `encode_leb128` (lines 6-17 of the script): unsigned
LEB128 encoding.  Each loop iteration of the Python `while True` loop
appends one byte; the loop body computes `byte = value & 0x7F`, shifts
`value >>= 7`, sets the continuation bit `0x80` when the shifted value is
nonzero, and stops once the shifted value is zero. -/
def encode_leb128 (value : Nat) : List Nat :=
  if value >>> 7 = 0 then
    [value &&& 0x7F]
  else
    ((value &&& 0x7F) ||| 0x80) :: encode_leb128 (value >>> 7)
termination_by value
decreasing_by
  simp only [Nat.shiftRight_eq_div_pow] at *
  omega

/-- The WASM magic constant, the Python literal b'\x00asm'. -/
def wasmMagic : List Nat := [0x00, 0x61, 0x73, 0x6D]

/-- Embedding of Python's `name.encode('utf-8')` (line 29): the UTF-8
bytes of a string, using the standard per-character UTF-8 encoding. -/
def utf8Encode (s : String) : List Nat :=
  (s.data.flatMap String.utf8EncodeChar).map (fun b => b.toNat)

/-- The `section_content` local of `add_custom_section` (line 30):
varint-encoded name length, then the name bytes, then the payload. -/
def section_content (name : String) (data : List Nat) : List Nat :=
  encode_leb128 (utf8Encode name).length ++ utf8Encode name ++ data

/-- The `custom_section` local of `add_custom_section` (line 33): type
tag byte 0, varint-encoded content length, then the content. -/
def custom_section (name : String) (data : List Nat) : List Nat :=
  [0] ++ encode_leb128 (section_content name data).length ++ section_content name data

/-- Embedding of `add_custom_section` (lines 19-36): slice out magic and
version, reject a bad magic with the `ValueError` message, otherwise
splice the new custom section between the header and the original body. -/
def add_custom_section (wasm_bytes : List Nat) (name : String) (data : List Nat) :
    Except String (List Nat) :=
  let magic := wasm_bytes.take 4
  let version := (wasm_bytes.drop 4).take 4
  if magic ≠ wasmMagic then
    Except.error "Invalid WASM file"
  else
    Except.ok (magic ++ version ++ custom_section name data ++ wasm_bytes.drop 8)

/-- Standard unsigned LEB128 decoder over a whole byte list (a compliant
reader used to state round-trip properties): low 7 bits of each byte are
the payload, later bytes are more significant. -/
def decode_leb128 : List Nat → Nat
  | [] => 0
  | b :: rest => (b &&& 0x7F) + (decode_leb128 rest <<< 7)

/-- Standard unsigned LEB128 decoder that consumes a prefix of a byte
list and returns the decoded value together with the unconsumed rest; a
byte with the continuation bit clear ends the varint. -/
def decode_leb128_from : List Nat → Option (Nat × List Nat)
  | [] => none
  | b :: rest =>
    if b < 0x80 then
      some (b, rest)
    else
      match decode_leb128_from rest with
      | some (v, rest2) => some ((b &&& 0x7F) + (v <<< 7), rest2)
      | none => none

/-- Compliant reader for one complete custom-section record: checks the
type tag 0, reads the varint content length, takes that many content
bytes, reads the varint name length inside the content, and returns the
name bytes and the payload bytes. -/
def parse_custom_section (bytes : List Nat) : Option (List Nat × List Nat) :=
  match bytes with
  | 0 :: rest =>
    match decode_leb128_from rest with
    | some (clen, r1) =>
      if clen ≤ r1.length then
        match decode_leb128_from (r1.take clen) with
        | some (nlen, r2) =>
          if nlen ≤ r2.length then some (r2.take nlen, r2.drop nlen) else none
        | none => none
      else none
    | none => none
  | _ => none

/-- Wellformedness of a LEB128 byte list: nonempty, the continuation bit
(0x80) is set on every byte except the last, and clear on the last. -/
def leb_wellformed : List Nat → Bool
  | [] => false
  | b :: rest =>
    if rest.isEmpty then decide (b < 128)
    else decide (128 ≤ b ∧ b < 256) && leb_wellformed rest

/-- Minimality of a LEB128 byte list: wellformed, and the last byte is
nonzero unless the whole encoding is the sole byte 0x00 (no trailing
zero continuation group). -/
def leb_minimal (l : List Nat) : Bool :=
  leb_wellformed l && (decide (l = [0]) || decide (l.getLast? ≠ some 0))

/-- Model of line 48 of the script, `sys.stdin.read().encode('utf-8')`,
restricted to ASCII standard input (every byte < 128, valid under any
standard locale).  Python opens `sys.stdin` in text mode, whose default
universal-newline handling rewrites CR LF (0D 0A) and lone CR (0D) to LF
(0A) while reading; re-encoding the resulting ASCII text as UTF-8 is the
identity on the remaining bytes.  The manifest the script embeds is thus
the newline-translated form of the raw stdin bytes, not the raw bytes. -/
def translate_newlines : List Nat → List Nat
  | [] => []
  | 13 :: 10 :: rest => 10 :: translate_newlines rest
  | 13 :: rest => 10 :: translate_newlines rest
  | b :: rest => b :: translate_newlines rest

/-- The payload `manifest_data` that the `__main__` glue passes to
`add_custom_section` (line 48), as a function of the raw bytes supplied
on standard input, for ASCII input. -/
def stdin_manifest_ascii (stdin_bytes : List Nat) : List Nat :=
  translate_newlines stdin_bytes

/-- Arithmetic reading of the bit mask: the low 7 bits are the value mod 128. -/
theorem and_127_eq_mod (n : Nat) : n &&& 127 = n % 128 := by
  have h := Nat.and_pow_two_sub_one_eq_mod n 7
  norm_num at h
  exact h

/-- Arithmetic reading of the shift: shifting right by 7 divides by 128. -/
theorem shiftRight_7_eq_div (n : Nat) : n >>> 7 = n / 128 := by
  rw [Nat.shiftRight_eq_div_pow]

/-- Arithmetic reading of setting the continuation bit on a 7-bit group. -/
theorem or_128_eq_add {x : Nat} (h : x < 128) : x ||| 128 = x + 128 := by
  have h2 : (128 : Nat) + x = 128 ||| x := by
    have h3 := @Nat.mul_add_lt_is_or 7 x (by norm_num [h]) 1
    norm_num at h3
    exact h3
  rw [Nat.lor_comm, ← h2]
  omega

/-- Unfolding equation for `encode_leb128` with the bit operations
rewritten to division and remainder. -/
theorem encode_leb128_eq (n : Nat) :
    encode_leb128 n =
      if n / 128 = 0 then [n % 128]
      else (n % 128 + 128) :: encode_leb128 (n / 128) := by
  rw [encode_leb128]
  rw [shiftRight_7_eq_div, and_127_eq_mod]
  by_cases h : n / 128 = 0
  · simp [h]
  · simp only [h, if_false]
    rw [or_128_eq_add (Nat.mod_lt n (by norm_num))]

/-- Values below 128 encode as a single byte. -/
theorem encode_leb128_small {n : Nat} (h : n < 128) : encode_leb128 n = [n] := by
  rw [encode_leb128_eq, Nat.div_eq_of_lt h, Nat.mod_eq_of_lt h]
  simp

/-- Reduction of `leb_wellformed` on a one-byte list. -/
theorem leb_wellformed_singleton (b : Nat) : leb_wellformed [b] = decide (b < 128) := rfl

/-- Reduction of `leb_wellformed` on a list of at least two bytes. -/
theorem leb_wellformed_cons_cons (b c : Nat) (rest : List Nat) :
    leb_wellformed (b :: c :: rest)
      = (decide (128 ≤ b ∧ b < 256) && leb_wellformed (c :: rest)) := rfl

/-- The encoder never returns the empty list. -/
theorem encode_leb128_length_pos (n : Nat) : 0 < (encode_leb128 n).length := by
  rw [encode_leb128_eq]
  by_cases h : n / 128 = 0 <;> simp [h]

/-- The standalone decoder inverts the encoder. -/
theorem decode_encode_leb128 (n : Nat) : decode_leb128 (encode_leb128 n) = n := by
  induction n using Nat.strong_induction_on with
  | _ n ih =>
    rw [encode_leb128_eq]
    by_cases h : n / 128 = 0
    · simp [h, decode_leb128, and_127_eq_mod]
      omega
    · have hlt : n / 128 < n := by omega
      simp [h, decode_leb128, and_127_eq_mod, ih _ hlt, Nat.shiftLeft_eq]
      omega

/-- Every encoding is wellformed: continuation bits set except on the last byte. -/
theorem leb_wellformed_encode (n : Nat) : leb_wellformed (encode_leb128 n) = true := by
  induction n using Nat.strong_induction_on with
  | _ n ih =>
    rw [encode_leb128_eq]
    by_cases h : n / 128 = 0
    · simp [h, leb_wellformed_singleton]
      omega
    · have hlt : n / 128 < n := by omega
      have hwf := ih _ hlt
      cases hE : encode_leb128 (n / 128) with
      | nil =>
        have hpos := encode_leb128_length_pos (n / 128)
        rw [hE] at hpos
        simp at hpos
      | cons c rest =>
        rw [hE] at hwf
        simp [h, hE, leb_wellformed_cons_cons, hwf]
        omega

/-- For a nonzero value, the last byte of the encoding is nonzero. -/
theorem encode_leb128_getLast_ne_zero (n : Nat) (h : n ≠ 0) :
    (encode_leb128 n).getLast? ≠ some 0 := by
  induction n using Nat.strong_induction_on with
  | _ n ih =>
    rw [encode_leb128_eq]
    by_cases hd : n / 128 = 0
    · have : n % 128 = n := Nat.mod_eq_of_lt (by omega)
      simp [hd, this, h]
    · have hlt : n / 128 < n := by omega
      have hlast := ih _ hlt hd
      cases hE : encode_leb128 (n / 128) with
      | nil =>
        have hpos := encode_leb128_length_pos (n / 128)
        rw [hE] at hpos
        simp at hpos
      | cons c rest =>
        rw [hE] at hlast
        simp [hd, hE, List.getLast?_cons_cons]
        simpa using hlast

/-- Every encoding is minimal: no trailing zero continuation group. -/
theorem leb_minimal_encode (n : Nat) : leb_minimal (encode_leb128 n) = true := by
  unfold leb_minimal
  by_cases h : n = 0
  · subst h
    rw [encode_leb128_small (by norm_num)]
    simp [leb_wellformed]
  · simp [leb_wellformed_encode n, encode_leb128_getLast_ne_zero n h]

/-- The consuming decoder reads back exactly the encoded value and
leaves the trailing bytes untouched. -/
theorem decode_leb128_from_encode (n : Nat) (tail : List Nat) :
    decode_leb128_from (encode_leb128 n ++ tail) = some (n, tail) := by
  induction n using Nat.strong_induction_on with
  | _ n ih =>
    rw [encode_leb128_eq]
    by_cases h : n / 128 = 0
    · have hm : n % 128 < 128 := Nat.mod_lt _ (by norm_num)
      have hn : n % 128 = n := by omega
      have hn2 : n < 128 := by omega
      simp [h, decode_leb128_from, hn, hn2]
    · have hlt : n / 128 < n := by omega
      have hge : ¬ (n % 128 + 128 < 128) := by omega
      simp only [h, if_false, List.cons_append]
      rw [decode_leb128_from]
      simp only [hge, if_false, ih _ hlt]
      rw [and_127_eq_mod, Nat.shiftLeft_eq]
      norm_num
      omega

/-- After as many 7-bit shifts as the encoder emitted bytes, the value
is exhausted: the loop stops with remaining value zero. -/
theorem encode_leb128_shift_exhausts (n : Nat) :
    n >>> (7 * (encode_leb128 n).length) = 0 := by
  induction n using Nat.strong_induction_on with
  | _ n ih =>
    rw [encode_leb128_eq]
    by_cases h : n / 128 = 0
    · simp [h, shiftRight_7_eq_div]
    · have hlt : n / 128 < n := by omega
      have hih := ih _ hlt
      simp only [h, if_false, List.length_cons]
      have h7 : 7 * ((encode_leb128 (n / 128)).length + 1)
          = 7 + 7 * (encode_leb128 (n / 128)).length := by ring
      rw [h7, Nat.shiftRight_add, shiftRight_7_eq_div, hih]

/-- Splitting an 8-byte prefix into the two 4-byte slices taken by the code. -/
theorem take_four_four (l : List Nat) : l.take 4 ++ (l.drop 4).take 4 = l.take 8 := by
  have h := List.take_add l 4 4
  norm_num at h
  exact h.symm

/-- Taking exactly the length of the left part of an append returns that part. -/
theorem take_append_of_length {α : Type} (l₁ l₂ : List α) (n : Nat) (h : l₁.length = n) :
    (l₁ ++ l₂).take n = l₁ := by
  subst h
  exact List.take_left l₁ l₂

/-- Dropping exactly the length of the left part of an append returns the right part. -/
theorem drop_append_of_length {α : Type} (l₁ l₂ : List α) (n : Nat) (h : l₁.length = n) :
    (l₁ ++ l₂).drop n = l₂ := by
  subst h
  exact List.drop_left l₁ l₂

/-- On a valid magic, `add_custom_section` returns the spliced container. -/
theorem add_custom_section_ok (w : List Nat) (name : String) (data : List Nat)
    (h : w.take 4 = wasmMagic) :
    add_custom_section w name data
      = Except.ok (w.take 4 ++ (w.drop 4).take 4 ++ custom_section name data ++ w.drop 8) := by
  unfold add_custom_section
  simp [h]

/-- On a bad magic, `add_custom_section` fails with the ValueError message. -/
theorem add_custom_section_error (w : List Nat) (name : String) (data : List Nat)
    (h : ¬ w.take 4 = wasmMagic) :
    add_custom_section w name data = Except.error "Invalid WASM file" := by
  unfold add_custom_section
  simp [h]

/-- Concrete UTF-8 bytes of the name used in the worked scenario. -/
theorem utf8_hello : utf8Encode "hello" = [104, 101, 108, 108, 111] := by decide

/-- C4: for every non-negative integer n, decoding the LEB128 encoding of
n with a standard decoder yields n, and the encoding is minimal: the
continuation bit is set exactly on the non-final bytes and the last byte
is nonzero except for the sole 0x00 encoding of zero. -/
theorem leb128_roundtrip_minimal (n : Nat) :
    decode_leb128 (encode_leb128 n) = n ∧ leb_minimal (encode_leb128 n) = true :=
  ⟨decode_encode_leb128 n, leb_minimal_encode n⟩

/-- C5: the encoder maps 0 to the single byte 0x00, and never returns an
empty byte sequence. -/
theorem leb128_zero_single_byte :
    encode_leb128 0 = [0] ∧ ∀ n : Nat, 0 < (encode_leb128 n).length :=
  ⟨encode_leb128_small (by norm_num), fun n => encode_leb128_length_pos n⟩

/-- C9: the encoding loop terminates; it runs one iteration per emitted
byte, and after shifting the value right by 7 bits that many times the
remaining value is exactly zero, which is the loop's stopping condition. -/
theorem leb128_loop_terminates (n : Nat) :
    0 < (encode_leb128 n).length ∧ n >>> (7 * (encode_leb128 n).length) = 0 :=
  ⟨encode_leb128_length_pos n, encode_leb128_shift_exhausts n⟩

/-- C6: the function succeeds exactly when the first 4 bytes are the
magic, and on any other input it fails with the ValueError message,
returning no output bytes. -/
theorem add_custom_section_fails_iff_bad_magic (w : List Nat) (name : String) (data : List Nat) :
    ((add_custom_section w name data).isOk = decide (w.take 4 = wasmMagic))
    ∧ (w.take 4 ≠ wasmMagic → add_custom_section w name data = Except.error "Invalid WASM file") := by
  constructor
  · by_cases h : w.take 4 = wasmMagic
    · rw [add_custom_section_ok w name data h]
      simp [h, Except.isOk, Except.toBool]
    · rw [add_custom_section_error w name data h]
      simp [h, Except.isOk, Except.toBool]
  · intro h
    exact add_custom_section_error w name data h

/-- Witness for C6 at a concrete rejected input. -/
theorem add_custom_section_fails_iff_bad_magic_witness :
    add_custom_section [1, 2, 3, 4] "a" [] = Except.error "Invalid WASM file" :=
  (add_custom_section_fails_iff_bad_magic [1, 2, 3, 4] "a" []).2 (by decide)

/-- C8: evaluation of the modelled standard-input handling at the CR LF
input: the script's text-mode read turns the raw stdin bytes 0D 0A into
the single byte 0A before they reach add_custom_section, so the payload
is not the raw stdin bytes. -/
theorem stdin_crlf_translated : stdin_manifest_ascii [13, 10] = [10] := by decide

/-- Regrouping the spliced output around the 8-byte prefix of the input. -/
theorem splice_eq_take8 (w : List Nat) (name : String) (data : List Nat) :
    w.take 4 ++ (w.drop 4).take 4 ++ custom_section name data ++ w.drop 8
      = w.take 8 ++ custom_section name data ++ w.drop 8 := by
  rw [take_four_four]

/-- C1 (amended): for a magic-prefixed input the output is
magic slice ++ version slice ++ new record ++ input bytes from offset 8,
and when the input is at least 8 bytes long the first 8 output bytes
equal the first 8 input bytes. -/
theorem splice_and_header_preservation (w : List Nat) (name : String) (data : List Nat)
    (h : w.take 4 = wasmMagic) :
    add_custom_section w name data
      = Except.ok (w.take 4 ++ (w.drop 4).take 4 ++ custom_section name data ++ w.drop 8)
    ∧ (8 ≤ w.length →
        (w.take 4 ++ (w.drop 4).take 4 ++ custom_section name data ++ w.drop 8).take 8
          = w.take 8) := by
  refine ⟨add_custom_section_ok w name data h, fun hlen => ?_⟩
  rw [splice_eq_take8, List.append_assoc]
  have h8 : (w.take 8).length = 8 := by
    simp [List.length_take]
    omega
  exact take_append_of_length _ _ _ h8

/-- Witness for C1 at a concrete 8-byte container. -/
theorem splice_and_header_preservation_witness :
    add_custom_section [0, 97, 115, 109, 1, 0, 0, 0] "hello" [66]
      = Except.ok (([0, 97, 115, 109, 1, 0, 0, 0] : List Nat).take 4
          ++ (([0, 97, 115, 109, 1, 0, 0, 0] : List Nat).drop 4).take 4
          ++ custom_section "hello" [66] ++ ([0, 97, 115, 109, 1, 0, 0, 0] : List Nat).drop 8)
    ∧ (([0, 97, 115, 109, 1, 0, 0, 0] : List Nat).take 4
          ++ (([0, 97, 115, 109, 1, 0, 0, 0] : List Nat).drop 4).take 4
          ++ custom_section "hello" [66] ++ ([0, 97, 115, 109, 1, 0, 0, 0] : List Nat).drop 8).take 8
        = ([0, 97, 115, 109, 1, 0, 0, 0] : List Nat).take 8 :=
  have hw := splice_and_header_preservation [0, 97, 115, 109, 1, 0, 0, 0] "hello" [66] (by decide)
  ⟨hw.1, hw.2 (by decide)⟩

/-- C1 counterexample: a 4-byte input equal to the magic passes the
check, but the first 8 bytes of the output are not the first 8 bytes of
the input, so header preservation fails for magic-prefixed inputs
shorter than 8 bytes. -/
theorem header_preservation_counterexample :
    (([0x00, 0x61, 0x73, 0x6D] : List Nat).take 4 = wasmMagic)
    ∧ ∃ out, add_custom_section [0x00, 0x61, 0x73, 0x6D] "hello" [] = Except.ok out
        ∧ out.take 8 ≠ ([0x00, 0x61, 0x73, 0x6D] : List Nat).take 8 := by
  refine ⟨by decide, [0, 0x61, 0x73, 0x6D, 0, 6, 5, 104, 101, 108, 108, 111], ?_, by decide⟩
  rw [add_custom_section_ok _ _ _ (by decide)]
  have h5 : encode_leb128 5 = [5] := encode_leb128_small (by norm_num)
  have h6 : encode_leb128 6 = [6] := encode_leb128_small (by norm_num)
  simp [custom_section, section_content, utf8_hello, h5, h6]

/-- C2: on a magic-prefixed input the output is the 8-byte-prefix of the
input, then the new record, then the input bytes from offset 8 (the new
section comes first, right after the header), and dropping
8 + len(record) output bytes gives back exactly the input bytes from
offset 8. -/
theorem tail_preservation (w : List Nat) (name : String) (data : List Nat)
    (h : w.take 4 = wasmMagic) :
    add_custom_section w name data
      = Except.ok (w.take 8 ++ custom_section name data ++ w.drop 8)
    ∧ (w.take 8 ++ custom_section name data ++ w.drop 8).drop
        (8 + (custom_section name data).length) = w.drop 8 := by
  constructor
  · rw [add_custom_section_ok w name data h, splice_eq_take8]
  · by_cases hlen : 8 ≤ w.length
    · have hl : (w.take 8 ++ custom_section name data).length
          = 8 + (custom_section name data).length := by
        simp [List.length_append, List.length_take]
        omega
      exact drop_append_of_length _ _ _ hl
    · have hd : w.drop 8 = [] := List.drop_eq_nil_of_le (by omega)
      rw [hd]
      apply List.drop_eq_nil_of_le
      simp [List.length_append, List.length_take]

/-- Witness for C2 at a concrete 9-byte container with one body byte. -/
theorem tail_preservation_witness :
    add_custom_section [0, 97, 115, 109, 1, 0, 0, 0, 42] "hello" [66]
      = Except.ok (([0, 97, 115, 109, 1, 0, 0, 0, 42] : List Nat).take 8
          ++ custom_section "hello" [66] ++ ([0, 97, 115, 109, 1, 0, 0, 0, 42] : List Nat).drop 8)
    ∧ (([0, 97, 115, 109, 1, 0, 0, 0, 42] : List Nat).take 8
          ++ custom_section "hello" [66] ++ ([0, 97, 115, 109, 1, 0, 0, 0, 42] : List Nat).drop 8).drop
        (8 + (custom_section "hello" [66]).length)
        = ([0, 97, 115, 109, 1, 0, 0, 0, 42] : List Nat).drop 8 :=
  tail_preservation [0, 97, 115, 109, 1, 0, 0, 0, 42] "hello" [66] (by decide)

/-- C10: every magic-prefixed input is accepted, with no further length
requirement; the slices are total, so for inputs shorter than 8 bytes
the copied version field is simply shorter than 4 bytes, as the length
equation shows. -/
theorem accepts_magic_prefix_short_inputs (w : List Nat) (name : String) (data : List Nat)
    (h : w.take 4 = wasmMagic) :
    add_custom_section w name data
      = Except.ok (w.take 4 ++ (w.drop 4).take 4 ++ custom_section name data ++ w.drop 8)
    ∧ ((w.drop 4).take 4).length = min 4 (w.length - 4) := by
  refine ⟨add_custom_section_ok w name data h, ?_⟩
  simp [List.length_take, List.length_drop]

/-- Witness for C10 at the 4-byte input consisting of the magic alone. -/
theorem accepts_magic_prefix_short_inputs_witness :
    add_custom_section wasmMagic "hello" []
      = Except.ok (wasmMagic.take 4 ++ (wasmMagic.drop 4).take 4
          ++ custom_section "hello" [] ++ wasmMagic.drop 8)
    ∧ ((wasmMagic.drop 4).take 4).length = min 4 (wasmMagic.length - 4) :=
  accepts_magic_prefix_short_inputs wasmMagic "hello" [] (by decide)

/-- C3 (amended): the worked scenario: minimal 8-byte container, name
hello, payload Bonjour; the output is exactly the listed byte sequence
(header, tag 00, content length 0D, name length 05, the name, the
payload), whose total length is 23 bytes, not the 22 the claim states. -/
theorem worked_scenario :
    add_custom_section [0x00, 0x61, 0x73, 0x6D, 0x01, 0x00, 0x00, 0x00] "hello"
        [0x42, 0x6F, 0x6E, 0x6A, 0x6F, 0x75, 0x72]
      = Except.ok [0x00, 0x61, 0x73, 0x6D, 0x01, 0x00, 0x00, 0x00,
          0x00, 0x0D, 0x05, 0x68, 0x65, 0x6C, 0x6C, 0x6F,
          0x42, 0x6F, 0x6E, 0x6A, 0x6F, 0x75, 0x72]
    ∧ ([0x00, 0x61, 0x73, 0x6D, 0x01, 0x00, 0x00, 0x00,
          0x00, 0x0D, 0x05, 0x68, 0x65, 0x6C, 0x6C, 0x6F,
          0x42, 0x6F, 0x6E, 0x6A, 0x6F, 0x75, 0x72] : List Nat).length = 23 := by
  constructor
  · rw [add_custom_section_ok _ _ _ (by decide)]
    have h5 : encode_leb128 5 = [5] := encode_leb128_small (by norm_num)
    have h13 : encode_leb128 13 = [13] := encode_leb128_small (by norm_num)
    simp [custom_section, section_content, utf8_hello, h5, h13]
  · decide

/-- C3 counterexample: the output of the worked scenario does not have
total length 22; its length is 23 (header 8, tag 1, content-length
varint 1, name-length varint 1, name 5, payload 7). -/
theorem worked_scenario_counterexample :
    ∃ out, add_custom_section [0x00, 0x61, 0x73, 0x6D, 0x01, 0x00, 0x00, 0x00] "hello"
        [0x42, 0x6F, 0x6E, 0x6A, 0x6F, 0x75, 0x72] = Except.ok out
      ∧ out.length ≠ 22 := by
  refine ⟨[0x00, 0x61, 0x73, 0x6D, 0x01, 0x00, 0x00, 0x00,
      0x00, 0x0D, 0x05, 0x68, 0x65, 0x6C, 0x6C, 0x6F,
      0x42, 0x6F, 0x6E, 0x6A, 0x6F, 0x75, 0x72], ?_, by decide⟩
  rw [add_custom_section_ok _ _ _ (by decide)]
  have h5 : encode_leb128 5 = [5] := encode_leb128_small (by norm_num)
  have h13 : encode_leb128 13 = [13] := encode_leb128_small (by norm_num)
  simp [custom_section, section_content, utf8_hello, h5, h13]

/-- C7: the record built for a name and payload is the tag byte 0, the
varint of the content length, and the content, where the content is the
varint of the name length, the name bytes, and the payload; the outer
varint decodes to exactly the byte count of the content that follows,
and a compliant reader parses the record back to the original name bytes
and payload. -/
theorem section_record_roundtrip (name : String) (data : List Nat) :
    custom_section name data
      = [0] ++ encode_leb128 (section_content name data).length ++ section_content name data
    ∧ section_content name data
      = encode_leb128 (utf8Encode name).length ++ utf8Encode name ++ data
    ∧ decode_leb128_from (encode_leb128 (section_content name data).length ++ section_content name data)
      = some ((section_content name data).length, section_content name data)
    ∧ parse_custom_section (custom_section name data) = some (utf8Encode name, data) := by
  refine ⟨rfl, rfl, decode_leb128_from_encode _ _, ?_⟩
  show parse_custom_section
      (0 :: (encode_leb128 (section_content name data).length ++ section_content name data))
      = some (utf8Encode name, data)
  rw [parse_custom_section, decode_leb128_from_encode]
  simp only [le_refl, if_true, List.take_length]
  rw [section_content, List.append_assoc, decode_leb128_from_encode]
  have hle : (utf8Encode name).length ≤ (utf8Encode name ++ data).length := by
    simp [List.length_append]
  simp only [hle, if_true, List.take_left, List.drop_left]
